import Mathlib

/-!
# Verification of the slipstream lane-vector core

Shallow embedding of the `slipstream` crate's core (`src/vector.rs`,
`src/iterators.rs`, `src/mask.rs`) and proofs of the specification claims.

Modelling conventions:
* `Vector A B S` from `vector.rs` is modelled as `Slipstream.Vector B S`, a
  list of lanes together with its length invariant.  The alignment marker `A`
  is a zero-sized tag with no observable behaviour, so it is dropped.
* Mask base types (`m8`, …, `bool`) have exactly the two values `TRUE`/`FALSE`
  and a `bool()` conversion; a mask element is modelled as `Bool`.
* A Rust panic (assertion failure / out-of-bounds slice index) is modelled as
  `Option.none` (or `Except.error` carrying the state of the output buffer at
  the abort point, for operations that mutate a caller buffer).
-/

set_option linter.unusedVariables false

namespace Slipstream

/-- Model of `Vector<A, B, S>` from `src/vector.rs`: `S` contiguous lanes of
the base type `B`.  The `data: [B; S]` array is a list with a length
invariant. -/
structure Vector (B : Type) (S : Nat) where
  data : List B
  hlen : data.length = S

namespace Vector

/-- Lane access `self.data[i]` (array indexing, in bounds by the type). -/
def get {B : Type} {S : Nat} (v : Vector B S) (i : Fin S) : B :=
  v.data.get ⟨i.1, by rw [v.hlen]; exact i.2⟩

/-- Building a vector by writing each lane `i` (the `MaybeUninit` +
`ptr::write` loop pattern used throughout `vector.rs`). -/
def ofFn {B : Type} {S : Nat} (f : Fin S → B) : Vector B S :=
  ⟨List.ofFn f, List.length_ofFn f⟩

theorem get_ofFn {B : Type} {S : Nat} (f : Fin S → B) (i : Fin S) :
    (ofFn f).get i = f i := by
  simp [ofFn, get, List.get_ofFn]

theorem ext_get {B : Type} {S : Nat} {v w : Vector B S}
    (h : ∀ i : Fin S, v.get i = w.get i) : v = w := by
  cases v with
  | mk vd vh =>
    cases w with
    | mk wd wh =>
      simp only [Vector.mk.injEq]
      apply List.ext_get (by rw [vh, wh])
      intro i h1 h2
      have := h ⟨i, by rw [← vh]; exact h1⟩
      simpa [get] using this

end Vector

/-- The body of the `bin_op_impl!` macro in `src/vector.rs` (lines 84–138):
for each lane `i` in `0..S`, write `op(self.data[i], rhs.data[i])` into lane
`i` of the result.  The macro is instantiated, with this exact body, for
`Add, Sub, Mul, Div, Rem, BitAnd, BitOr, BitXor, Shl, Shr` (lines 859–868);
`op` is the corresponding scalar operator of the base type `B`. -/
def binOp {B : Type} {S : Nat} (op : B → B → B) (x y : Vector B S) :
    Vector B S :=
  Vector.ofFn fun i => op (x.get i) (y.get i)

/-- The body of the `cmp_op!` macro in `src/vector.rs` (lines 161–183):
lane `i` of the produced native mask is `B::Mask::from_bool(p(self.data[i],
other.data[i]))`.  A mask lane is modelled by its `bool()` value. -/
def cmpOp {B : Type} {S : Nat} (p : B → B → Bool) (x y : Vector B S) :
    Vector Bool S :=
  Vector.ofFn fun i => p (x.get i) (y.get i)

/-- `Vector::blend` (`src/vector.rs` lines 582–599).  The mask is any
`AsRef<[MB]>` container; the loop indexes `mask[i]` for `i in 0..S`, which
panics (modelled as `none`) at the first `i ≥ mask.len()`.  No up-front
length check is performed. -/
def blend {B : Type} {S : Nat} (x y : Vector B S) (mask : List Bool) :
    Option (Vector B S) :=
  if h : S ≤ mask.length then
    some (Vector.ofFn fun i =>
      if mask.get ⟨i.1, lt_of_lt_of_le i.2 h⟩ then y.get i else x.get i)
  else
    none

/-- Rust `PartialOrd::lt` derived from `partial_cmp` (`c`): true iff the
comparison yields `Some(Less)`. -/
def pLt {B : Type} (c : B → B → Option Ordering) (a b : B) : Bool :=
  decide (c a b = some Ordering.lt)

/-- Rust `PartialOrd::gt` derived from `partial_cmp`: `Some(Greater)`. -/
def pGt {B : Type} (c : B → B → Option Ordering) (a b : B) : Bool :=
  decide (c a b = some Ordering.gt)

/-- Rust `PartialOrd::ge` derived from `partial_cmp`: `Some(Greater)` or
`Some(Equal)`. -/
def pGe {B : Type} (c : B → B → Option Ordering) (a b : B) : Bool :=
  decide (c a b = some Ordering.gt) || decide (c a b = some Ordering.eq)

/-- `Vector::maximum` (`src/vector.rs` lines 611–618): `let m = self.lt(other);
self.blend(other, m)`.  The base type's `PartialOrd` is the partial
comparison `c`. -/
def maximum {B : Type} {S : Nat} (c : B → B → Option Ordering)
    (x y : Vector B S) : Option (Vector B S) :=
  blend x y (cmpOp (pLt c) x y).data

/-- `Vector::minimum` (`src/vector.rs` lines 630–637): `let m = self.gt(other);
self.blend(other, m)`. -/
def minimum {B : Type} {S : Nat} (c : B → B → Option Ordering)
    (x y : Vector B S) : Option (Vector B S) :=
  blend x y (cmpOp (pGt c) x y).data

/-- `Vector::scatter_store` (`src/vector.rs` lines 499–523).  Asserts
`idx.len() == S`, then that every index is `< output.len()`, both **before**
the write loop; the write loop stores `self[i]` at `output[idx[i]]` for
`i in 0..S` (later lanes overwrite earlier ones on index collision).  A panic
is modelled as `Except.error` carrying the output buffer as it stands at the
abort point — which, the asserts being first, is the untouched input. -/
def scatter_store {B : Type} {S : Nat} (v : Vector B S) (out : List B)
    (idx : List Nat) : Except (List B) (List B) :=
  if idx.length = S then
    if idx.all (fun l => decide (l < out.length)) then
      Except.ok ((idx.zip v.data).foldl (fun o p => o.set p.1 p.2) out)
    else Except.error out
  else Except.error out

/-- `Vector::scatter_store_masked` (`src/vector.rs` lines 536–567).  Asserts
`idx.len() == S`, then `mask.len() == S`, then the bulk bounds check
restricted to mask-enabled lanes (`!mask[i].bool() || l < output.len()`), all
before the write loop; the loop stores only enabled lanes. -/
def scatter_store_masked {B : Type} {S : Nat} (v : Vector B S) (out : List B)
    (idx : List Nat) (mask : List Bool) : Except (List B) (List B) :=
  if idx.length = S then
    if mask.length = S then
      if (idx.zip mask).all (fun p => !p.2 || decide (p.1 < out.length)) then
        Except.ok (((idx.zip v.data).zip mask).foldl
          (fun o p => if p.2 then o.set p.1.1 p.1.2 else o) out)
      else Except.error out
    else Except.error out
  else Except.error out

/-- `Vector::gather_load_masked` (`src/vector.rs` lines 420–442).  Asserts
`idx.len() == S`, then `mask.len() == S`, up front; then lane by lane, for
enabled lanes, `self[i] = input[idx[i]]` where the slice indexing
`input[idx]` panics (modelled `none`) on an out-of-bounds index. -/
def gather_load_masked {B : Type} {S : Nat} (x : Vector B S) (input : List B)
    (idx : List Nat) (mask : List Bool) : Option (List B) :=
  if idx.length = S then
    if mask.length = S then
      (List.range S).foldl
        (fun acc i => acc.bind (fun d =>
          if mask.getD i false then
            match input.get? (idx.getD i 0) with
            | some b => some (d.set i b)
            | none => none
          else some d))
        (some x.data)
    else none
  else none

/-- The recursive helper `inner` shared by `Vector::horizontal_sum`
(`src/vector.rs` lines 646–661) and `Vector::horizontal_product` (lines
669–684): a slice of length 1 yields its single element, otherwise the slice
is split at `mid = len / 2` and the two reductions are combined with `op`.
The source diverges on an empty slice (unreachable, since `S ≥ 1` is enforced
by `assert_size`); that case is modelled as `none`. -/
def innerReduce {B : Type} (op : B → B → B) (d : List B) : Option B :=
  if d.length = 1 then d.head?
  else if h2 : 2 ≤ d.length then
    match innerReduce op (d.take (d.length / 2)),
          innerReduce op (d.drop (d.length / 2)) with
    | some a, some b => some (op a b)
    | _, _ => none
  else none
termination_by d.length
decreasing_by
  · simp only [List.length_take]
    omega
  · simp only [List.length_drop]
    omega

/-- `Vector::horizontal_sum`: `inner` applied to the lanes with the base
type's `+`. -/
def horizontal_sum {B : Type} {S : Nat} (add : B → B → B) (v : Vector B S) :
    Option B :=
  innerReduce add v.data

/-- `Vector::horizontal_product`: `inner` applied to the lanes with the base
type's `*`. -/
def horizontal_product {B : Type} {S : Nat} (mul : B → B → B)
    (v : Vector B S) : Option B :=
  innerReduce mul v.data

/-- Reference balanced-binary-tree reduction, written from the claim's words:
over lanes `f lo, …, f (lo + n - 1)`, if `n = 1` the single lane, otherwise
the reduction of the first `⌊n/2⌋` lanes combined with the reduction of the
remaining lanes.  (`n = 0` never arises; it returns the junk value `f lo`.) -/
def specReduce {B : Type} (op : B → B → B) (f : Nat → B) (lo : Nat) (n : Nat) :
    B :=
  if n ≤ 1 then f lo
  else op (specReduce op f lo (n / 2)) (specReduce op f (lo + n / 2) (n - n / 2))
termination_by n
decreasing_by
  · omega
  · omega

/-- `ReadVectorizer::get` (`src/iterators.rs` lines 395–399): the `idx`-th
window of `S` consecutive elements starting at `start.add(S * idx)`. -/
def readGet (S : Nat) {B : Type} (s : List B) (idx : Nat) : List B :=
  (s.drop (S * idx)).take S

/-- `<&[B] as Vectorizable<V>>::create` (`src/iterators.rs` lines 401–439):
computes `rest = len % S`, `main = len - rest`, and returns the number of
full vectors `main / S` together with the optional tail item.  With
`rest ≠ 0`, a supplied `pad` has its leading `rest` lanes overwritten by the
slice tail (`pad[..rest].copy_from_slice(&self[main..])`); without a pad the
source panics (modelled `none`).  The same arithmetic drives the `&mut [B]`
implementation (lines 484–513). -/
def createRead (S : Nat) {B : Type} (s : List B) (pad : Option (List B)) :
    Option (Nat × Option (List B)) :=
  let rest := s.length % S
  let main := s.length - rest
  if rest = 0 then some (main / S, none)
  else
    match pad with
    | some p => some (main / S, some (s.drop main ++ p.drop rest))
    | none => none

/-- `Vectorizable::vectorize` (`src/iterators.rs` lines 325–336) for `&[B]`,
composed with a full front-to-back traversal: `create` with no pad (panicking
if the length is not divisible by `S`, before anything is yielded), then the
`main / S` full windows in ascending order. -/
def vectorize (S : Nat) {B : Type} (s : List B) : Option (List (List B)) :=
  (createRead S s none).map (fun r => (List.range r.1).map (readGet S s))

/-- `Vectorizable::vectorize_pad` (`src/iterators.rs` lines 362–372) for
`&[B]`, composed with a full front-to-back traversal: the full windows in
ascending order, then the tail item (if any) last. -/
def vectorizePad (S : Nat) {B : Type} (s : List B) (pad : List B) :
    List (List B) :=
  match createRead S s (some pad) with
  | some (n, none) => (List.range n).map (readGet S s)
  | some (n, some t) => (List.range n).map (readGet S s) ++ [t]
  | none => []

/-- State of `VectorizedIter` (`src/iterators.rs` lines 132–139): the not-yet
yielded tail item (`partial: P`), the vectorizer (abstracted to its `get`
function), and the `left`/`right` cursors. -/
structure VectorizedIter (R : Type) where
  tailItem : Option R
  get : Nat → R
  left : Nat
  right : Nat

/-- `VectorizedIter::next` (`src/iterators.rs` lines 148–159): while
`left < right`, yield `get(left)` and advance `left`; afterwards yield the
tail item once; then `None`. -/
def next {R : Type} (it : VectorizedIter R) : Option R × VectorizedIter R :=
  if it.left < it.right then
    (some (it.get it.left), { it with left := it.left + 1 })
  else
    match it.tailItem with
    | some p => (some p, { it with tailItem := none })
    | none => (none, it)

/-- `VectorizedIter::next_back` (`src/iterators.rs` lines 199–211): first
take the tail item if still present; otherwise, while `left < right`,
decrement `right` and yield `get(right)`; then `None`. -/
def next_back {R : Type} (it : VectorizedIter R) :
    Option R × VectorizedIter R :=
  match it.tailItem with
  | some p => (some p, { it with tailItem := none })
  | none =>
    if it.left < it.right then
      (some (it.get (it.right - 1)), { it with right := it.right - 1 })
    else (none, it)

/-- Fuel-bounded front-to-back traversal by repeated `next`. -/
def drainFwd {R : Type} : Nat → VectorizedIter R → List R
  | 0, _ => []
  | fuel + 1, it =>
    match next it with
    | (some r, it2) => r :: drainFwd fuel it2
    | (none, _) => []

/-- Fuel-bounded back-to-front traversal by repeated `next_back`. -/
def drainBack {R : Type} : Nat → VectorizedIter R → List R
  | 0, _ => []
  | fuel + 1, it =>
    match next_back it with
    | (some r, it2) => r :: drainBack fuel it2
    | (none, _) => []

/-- The iterator state built by `vectorize` on `&[B]`: no tail item,
`left = 0`, `right = main / S`. -/
def vectorizeIter (S : Nat) {B : Type} (s : List B) :
    Option (VectorizedIter (List B)) :=
  (createRead S s none).map (fun r => ⟨r.2, readGet S s, 0, r.1⟩)

/-- The iterator state built by `vectorize_pad` on `&[B]`: the tail item from
`create`, `left = 0`, `right = main / S`. -/
def vectorizePadIter (S : Nat) {B : Type} (s : List B) (pad : List B) :
    Option (VectorizedIter (List B)) :=
  (createRead S s (some pad)).map (fun r => ⟨r.2, readGet S s, 0, r.1⟩)

/-- `MutProxy::drop` (`src/iterators.rs` lines 75–85) for the proxy of the
`idx`-th full window: `restore` is the `S`-element window starting at
`S * idx` (`WriteVectorizer::get`, lines 454–472), and the drop copies
`data[..restore.len()]` back into it. -/
def writeWindow (S : Nat) {B : Type} (s : List B) (idx : Nat) (d : List B) :
    List B :=
  s.take (S * idx) ++ d.take S ++ s.drop (S * idx + S)

/-- Consuming every proxy of `s.vectorize()` on `&mut [B]` without modifying
the proxied vectors: for each `idx` in `0 .. len / S` in order, the proxy is
initialized from the current contents of its window
(`V::new_unchecked(start.add(S * idx))`) and its drop writes that same data
back to the same window. -/
def proxyRoundTrip (S : Nat) {B : Type} (s : List B) : List B :=
  (List.range (s.length / S)).foldl
    (fun acc idx => writeWindow S acc idx (readGet S acc idx)) s

/-- The `partial_cmp` of a float-like base type with a NaN value: `none`
(the NaN) compares as `None` against everything, the remaining values are
totally ordered — exactly IEEE-754 `PartialOrd` behaviour. -/
def nanCmp : Option Int → Option Int → Option Ordering
  | some a, some b => some (compare a b)
  | _, _ => none

/-- A one-lane float-like vector holding NaN. -/
def vNaN : Vector (Option Int) 1 := ⟨[none], rfl⟩

/-- A one-lane float-like vector holding the number 1. -/
def vOne : Vector (Option Int) 1 := ⟨[some 1], rfl⟩

/-- A concrete two-lane integer vector, used by witnesses. -/
def v12 : Vector Int 2 := ⟨[1, 2], rfl⟩

/-- A concrete two-lane integer vector, used by witnesses. -/
def v56 : Vector Int 2 := ⟨[5, 6], rfl⟩

end Slipstream

namespace Slipstream

theorem flatten_window_map (S : Nat) {B : Type} (s : List B) :
    ∀ n : Nat, ((List.range n).map (readGet S s)).flatten = s.take (S * n) := by
  intro n
  induction n with
  | zero => simp
  | succ n ih =>
    rw [List.range_succ, List.map_append, List.flatten_append, ih]
    simp only [List.map_cons, List.map_nil, List.flatten_cons, List.flatten_nil,
      List.append_nil, readGet]
    rw [Nat.mul_succ, List.take_add]

theorem writeWindow_readGet (S : Nat) {B : Type} (s : List B) (idx : Nat) :
    writeWindow S s idx (readGet S s idx) = s := by
  unfold writeWindow readGet
  rw [List.take_take, min_self]
  have hdd : (s.drop (S * idx)).drop S = s.drop (S * idx + S) := by
    rw [List.drop_drop, Nat.add_comm]
  calc s.take (S * idx) ++ (s.drop (S * idx)).take S ++ s.drop (S * idx + S)
      = s.take (S * idx) ++
          ((s.drop (S * idx)).take S ++ (s.drop (S * idx)).drop S) := by
        rw [hdd, List.append_assoc]
    _ = s.take (S * idx) ++ s.drop (S * idx) := by
        rw [List.take_append_drop]
    _ = s := List.take_append_drop _ _

theorem foldl_fixed {α β : Type} (f : α → β → α) (a : α)
    (hf : ∀ x y, f x y = x) : ∀ l : List β, l.foldl f a = a := by
  intro l
  induction l with
  | nil => rfl
  | cons x xs ih => rw [List.foldl_cons, hf, ih]

theorem cmpOp_get {B : Type} {S : Nat} (p : B → B → Bool) (x y : Vector B S)
    (i : Fin S) : (cmpOp p x y).get i = p (x.get i) (y.get i) :=
  Vector.get_ofFn _ i

theorem blend_native_mask {B : Type} {S : Nat} (x y : Vector B S)
    (m : Vector Bool S) :
    ∃ v, blend x y m.data = some v ∧
      ∀ i : Fin S, v.get i = if m.get i then y.get i else x.get i := by
  unfold blend
  rw [dif_pos (le_of_eq m.hlen.symm)]
  refine ⟨_, rfl, fun i => ?_⟩
  rw [Vector.get_ofFn]
  rfl

theorem specReduce_shift {B : Type} (op : B → B → B) (f : Nat → B)
    (k : Nat) : ∀ (n lo : Nat),
    specReduce op (fun i => f (k + i)) lo n = specReduce op f (k + lo) n := by
  intro n
  induction n using Nat.strong_induction_on with
  | _ n IH =>
    intro lo
    unfold specReduce
    by_cases h : n ≤ 1
    · rw [if_pos h, if_pos h]
    · rw [if_neg h, if_neg h,
        IH (n / 2) (by omega) lo, IH (n - n / 2) (by omega) (lo + n / 2),
        Nat.add_assoc]

theorem specReduce_congr {B : Type} (op : B → B → B) :
    ∀ (n : Nat) (f g : Nat → B) (lo : Nat), 1 ≤ n →
      (∀ i, lo ≤ i → i < lo + n → f i = g i) →
      specReduce op f lo n = specReduce op g lo n := by
  intro n
  induction n using Nat.strong_induction_on with
  | _ n IH =>
    intro f g lo h1 hfg
    unfold specReduce
    by_cases h : n ≤ 1
    · rw [if_pos h, if_pos h, hfg lo le_rfl (by omega)]
    · rw [if_neg h, if_neg h,
        IH (n / 2) (by omega) f g lo (by omega)
          (fun i hi1 hi2 => hfg i hi1 (by omega)),
        IH (n - n / 2) (by omega) f g (lo + n / 2) (by omega)
          (fun i hi1 hi2 => hfg i (by omega) (by omega))]

theorem innerReduce_spec {B : Type} (op : B → B → B) (dflt : B) :
    ∀ (n : Nat) (d : List B), d.length = n → 1 ≤ n →
      innerReduce op d
        = some (specReduce op (fun i => d.getD i dflt) 0 n) := by
  intro n
  induction n using Nat.strong_induction_on with
  | _ n IH =>
    intro d hd h1
    by_cases hn1 : n = 1
    · subst hn1
      obtain ⟨a, rfl⟩ := List.length_eq_one.mp hd
      unfold innerReduce specReduce
      simp
    · have h2 : 2 ≤ n := by omega
      have hlen1 : (d.take (d.length / 2)).length = n / 2 := by
        simp only [List.length_take, hd]
        omega
      have hlen2 : (d.drop (d.length / 2)).length = n - n / 2 := by
        simp only [List.length_drop, hd]
      have e1 := IH (n / 2) (by omega) (d.take (d.length / 2)) hlen1 (by omega)
      have e2 := IH (n - n / 2) (by omega) (d.drop (d.length / 2)) hlen2
        (by omega)
      unfold innerReduce
      rw [if_neg (by omega : ¬ d.length = 1),
        dif_pos (by omega : 2 ≤ d.length), e1, e2]
      have hs : specReduce op (fun i => d.getD i dflt) 0 n
          = op (specReduce op (fun i => d.getD i dflt) 0 (n / 2))
              (specReduce op (fun i => d.getD i dflt) (0 + n / 2)
                (n - n / 2)) := by
        rw [specReduce.eq_def, if_neg (by omega : ¬ n ≤ 1)]
      rw [hs]
      have htake : specReduce op
            (fun i => (d.take (d.length / 2)).getD i dflt) 0 (n / 2)
          = specReduce op (fun i => d.getD i dflt) 0 (n / 2) := by
        apply specReduce_congr op (n / 2) _ _ 0 (by omega)
        intro i hi1 hi2
        simp only [List.getD_eq_getElem?_getD, List.getElem?_take]
        rw [if_pos (by omega : i < d.length / 2)]
      have hdropf : (fun i => (d.drop (d.length / 2)).getD i dflt)
          = (fun i => d.getD (n / 2 + i) dflt) := by
        funext i
        simp only [List.getD_eq_getElem?_getD, List.getElem?_drop, hd]
      have hdrop : specReduce op
            (fun i => (d.drop (d.length / 2)).getD i dflt) 0 (n - n / 2)
          = specReduce op (fun i => d.getD i dflt) (0 + n / 2)
              (n - n / 2) := by
        rw [hdropf, specReduce_shift op (fun i => d.getD i dflt) (n / 2)
          (n - n / 2) 0]
        rw [Nat.add_zero, Nat.zero_add]
      rw [htake, hdrop]

theorem innerReduce_four {B : Type} (op : B → B → B) (a b c d : B) :
    innerReduce op [a, b, c, d] = some (op (op a b) (op c d)) := by
  have h1 : ∀ z : B, innerReduce op [z] = some z := by
    intro z
    unfold innerReduce
    simp
  have h2 : ∀ z w : B, innerReduce op [z, w] = some (op z w) := by
    intro z w
    unfold innerReduce
    simp [h1]
  unfold innerReduce
  simp [h2]

theorem drainFwd_spec {R : Type} :
    ∀ (fuel : Nat) (tl : Option R) (g : Nat → R) (l r : Nat),
      r - l + (if tl.isSome then 1 else 0) ≤ fuel →
      drainFwd fuel ⟨tl, g, l, r⟩
        = (List.range' l (r - l)).map g ++ tl.toList := by
  intro fuel
  induction fuel with
  | zero =>
    intro tl g l r h
    rcases tl with _ | p
    · simp only [Option.isSome_none] at h
      have h0 : r - l = 0 := by omega
      rw [h0]
      rfl
    · simp at h
  | succ fuel IH =>
    intro tl g l r h
    by_cases hlr : l < r
    · have hnext : next (⟨tl, g, l, r⟩ : VectorizedIter R)
          = (some (g l), ⟨tl, g, l + 1, r⟩) := by
        simp [next, hlr]
      have hstep : drainFwd (fuel + 1) (⟨tl, g, l, r⟩ : VectorizedIter R)
          = g l :: drainFwd fuel (⟨tl, g, l + 1, r⟩ : VectorizedIter R) := by
        simp only [drainFwd, hnext]
      have hm : r - (l + 1) + (if tl.isSome then 1 else 0) ≤ fuel := by
        rcases tl <;> simp at h ⊢ <;> omega
      rw [hstep, IH tl g (l + 1) r hm]
      have hsc : r - l = (r - (l + 1)) + 1 := by omega
      rw [hsc, List.range'_succ]
      simp
    · rcases tl with _ | p
      · have hnext : next (⟨none, g, l, r⟩ : VectorizedIter R)
            = (none, ⟨none, g, l, r⟩) := by
          simp [next, hlr]
        have hstep : drainFwd (fuel + 1) (⟨none, g, l, r⟩ : VectorizedIter R)
            = [] := by
          simp only [drainFwd, hnext]
        have h0 : r - l = 0 := by omega
        rw [hstep, h0]
        rfl
      · have hnext : next (⟨some p, g, l, r⟩ : VectorizedIter R)
            = (some p, ⟨none, g, l, r⟩) := by
          simp [next, hlr]
        have hstep : drainFwd (fuel + 1) (⟨some p, g, l, r⟩ : VectorizedIter R)
            = p :: drainFwd fuel (⟨none, g, l, r⟩ : VectorizedIter R) := by
          simp only [drainFwd, hnext]
        have hm : r - l + (if (none : Option R).isSome then 1 else 0)
            ≤ fuel := by
          simp at h ⊢
          omega
        rw [hstep, IH none g l r hm]
        have h0 : r - l = 0 := by omega
        rw [h0]
        rfl

theorem drainBack_spec {R : Type} :
    ∀ (fuel : Nat) (tl : Option R) (g : Nat → R) (l r : Nat),
      r - l + (if tl.isSome then 1 else 0) ≤ fuel →
      drainBack fuel ⟨tl, g, l, r⟩
        = tl.toList ++ ((List.range' l (r - l)).map g).reverse := by
  intro fuel
  induction fuel with
  | zero =>
    intro tl g l r h
    rcases tl with _ | p
    · simp only [Option.isSome_none] at h
      have h0 : r - l = 0 := by omega
      rw [h0]
      rfl
    · simp at h
  | succ fuel IH =>
    intro tl g l r h
    rcases tl with _ | p
    · by_cases hlr : l < r
      · have hnext : next_back (⟨none, g, l, r⟩ : VectorizedIter R)
            = (some (g (r - 1)), ⟨none, g, l, r - 1⟩) := by
          simp [next_back, hlr]
        have hstep : drainBack (fuel + 1) (⟨none, g, l, r⟩ : VectorizedIter R)
            = g (r - 1) ::
              drainBack fuel (⟨none, g, l, r - 1⟩ : VectorizedIter R) := by
          simp only [drainBack, hnext]
        have hm : (r - 1) - l + (if (none : Option R).isSome then 1 else 0)
            ≤ fuel := by
          simp at h ⊢
          omega
        rw [hstep, IH none g l (r - 1) hm]
        have hsc : r - l = ((r - 1) - l) + 1 := by omega
        rw [hsc, List.range'_concat]
        have hix : l + 1 * ((r - 1) - l) = r - 1 := by omega
        rw [hix]
        simp
      · have hnext : next_back (⟨none, g, l, r⟩ : VectorizedIter R)
            = (none, ⟨none, g, l, r⟩) := by
          simp [next_back, hlr]
        have hstep : drainBack (fuel + 1) (⟨none, g, l, r⟩ : VectorizedIter R)
            = [] := by
          simp only [drainBack, hnext]
        have h0 : r - l = 0 := by omega
        rw [hstep, h0]
        rfl
    · have hnext : next_back (⟨some p, g, l, r⟩ : VectorizedIter R)
          = (some p, ⟨none, g, l, r⟩) := by
        simp [next_back]
      have hstep : drainBack (fuel + 1) (⟨some p, g, l, r⟩ : VectorizedIter R)
          = p :: drainBack fuel (⟨none, g, l, r⟩ : VectorizedIter R) := by
        simp only [drainBack, hnext]
      have hm : r - l + (if (none : Option R).isSome then 1 else 0)
          ≤ fuel := by
        simp at h ⊢
        omega
      rw [hstep, IH none g l r hm]
      rfl

end Slipstream

namespace Slipstream

/-- C1: for every supported binary operator, every pair of same-shape vectors
and every lane `i < S`, the result lane equals the scalar operator applied to
the operands' lanes; the result has the same shape (`S` lanes).  `op` ranges
over the scalar operators the `bin_op_impl!` macro is instantiated with
(`add, sub, mul, div, rem, bitand, bitor, bitxor, shl, shr`). -/
theorem binOp_lanewise {B : Type} {S : Nat} (op : B → B → B)
    (x y : Vector B S) (i : Fin S) :
    (binOp op x y).get i = op (x.get i) (y.get i) ∧
      (binOp op x y).data.length = S := by
  refine ⟨?_, (binOp op x y).hlen⟩
  simp [binOp, Vector.get_ofFn]

/-- C2: for a slice `s` and lane count `S`, if `s.len()` is an exact multiple
of `S` then `s.vectorize()` yields exactly `len / S` items whose lanes, in
yield order, concatenate back to `s`; otherwise `vectorize()` panics
(modelled `none`) before yielding anything. -/
theorem vectorize_exact_cover {B : Type} (S : Nat) (s : List B) (hS : 0 < S) :
    (s.length % S = 0 →
      ∃ l, vectorize S s = some l ∧ l.length = s.length / S ∧
        l.flatten = s) ∧
    (s.length % S ≠ 0 → vectorize S s = none) := by
  constructor
  · intro h0
    have hmain : S * (s.length / S) = s.length :=
      Nat.mul_div_cancel' (Nat.dvd_of_mod_eq_zero h0)
    refine ⟨(List.range (s.length / S)).map (readGet S s), ?_, ?_, ?_⟩
    · unfold vectorize createRead
      simp [h0]
    · simp
    · rw [flatten_window_map, hmain, List.take_length]
  · intro h0
    unfold vectorize createRead
    simp [h0]

/-- Witness for C2 at `S = 2`, `s = [1, 2, 3, 4]`. -/
theorem vectorize_exact_cover_witness :
    (0 : Nat) < 2 ∧
      ∃ l, vectorize 2 [(1 : Int), 2, 3, 4] = some l ∧
        l.length = [(1 : Int), 2, 3, 4].length / 2 ∧
        l.flatten = [(1 : Int), 2, 3, 4] :=
  ⟨by decide, (vectorize_exact_cover 2 [(1 : Int), 2, 3, 4] (by decide)).1
    (by decide)⟩

/-- C3: for any slice `s` and padding vector `pad`, `s.vectorize_pad(pad)`
yields `⌊len / S⌋` full items, plus — exactly when `len % S ≠ 0` — one final
item whose first `len % S` lanes are the tail of `s` and whose remaining
lanes are the corresponding lanes of `pad`; truncating the last item to
`len % S` lanes and concatenating all yielded lanes reproduces `s`. -/
theorem vectorizePad_cover {B : Type} (S : Nat) (s pad : List B)
    (hS : 0 < S) (hpad : pad.length = S) :
    (vectorizePad S s pad).length
        = s.length / S + (if s.length % S = 0 then 0 else 1) ∧
    ((vectorizePad S s pad).take (s.length / S)).flatten
        = s.take (S * (s.length / S)) ∧
    (s.length % S ≠ 0 →
      (vectorizePad S s pad).getLast?
          = some (s.drop (S * (s.length / S)) ++ pad.drop (s.length % S)) ∧
      (s.drop (S * (s.length / S)) ++ pad.drop (s.length % S)).take
          (s.length % S) = s.drop (S * (s.length / S)) ∧
      (s.drop (S * (s.length / S)) ++ pad.drop (s.length % S)).drop
          (s.length % S) = pad.drop (s.length % S) ∧
      (s.drop (S * (s.length / S)) ++ pad.drop (s.length % S)).length = S) ∧
    ((vectorizePad S s pad).take (s.length / S)).flatten ++
        (((vectorizePad S s pad).drop (s.length / S)).flatten.take
          (s.length % S))
        = s := by
  have hmod : s.length % S + S * (s.length / S) = s.length :=
    Nat.mod_add_div _ _
  have hmain : s.length - s.length % S = S * (s.length / S) := by omega
  have hdivmain : (s.length - s.length % S) / S = s.length / S := by
    rw [hmain, Nat.mul_div_cancel_left _ hS]
  have hrS : s.length % S < S := Nat.mod_lt _ hS
  have hdroplen : (s.drop (S * (s.length / S))).length = s.length % S := by
    simp only [List.length_drop]
    omega
  have hwinlen : ((List.range (s.length / S)).map (readGet S s)).length
      = s.length / S := by simp
  by_cases h0 : s.length % S = 0
  · have hres : vectorizePad S s pad
        = (List.range (s.length / S)).map (readGet S s) := by
      unfold vectorizePad createRead
      simp [h0, hdivmain]
    have htk : (vectorizePad S s pad).take (s.length / S)
        = (List.range (s.length / S)).map (readGet S s) := by
      rw [hres]
      exact List.take_of_length_le (le_of_eq hwinlen)
    have hdp : (vectorizePad S s pad).drop (s.length / S) = [] := by
      rw [hres]
      exact List.drop_of_length_le (le_of_eq hwinlen)
    refine ⟨?_, ?_, fun hr => absurd h0 hr, ?_⟩
    · rw [hres, if_pos h0, hwinlen]
      omega
    · rw [htk, flatten_window_map]
    · rw [htk, hdp, flatten_window_map]
      simp only [List.flatten_nil, List.take_nil, List.append_nil]
      have : S * (s.length / S) = s.length := by omega
      rw [this, List.take_length]
  · have hres : vectorizePad S s pad
        = (List.range (s.length / S)).map (readGet S s) ++
          [s.drop (S * (s.length / S)) ++ pad.drop (s.length % S)] := by
      have hcancel : S * (s.length / S) / S = s.length / S :=
        Nat.mul_div_cancel_left _ hS
      unfold vectorizePad createRead
      simp [h0, hdivmain, hmain, hcancel]
    have htk : (vectorizePad S s pad).take (s.length / S)
        = (List.range (s.length / S)).map (readGet S s) := by
      rw [hres]
      exact List.take_left' hwinlen
    have hdp : (vectorizePad S s pad).drop (s.length / S)
        = [s.drop (S * (s.length / S)) ++ pad.drop (s.length % S)] := by
      rw [hres]
      exact List.drop_left' hwinlen
    refine ⟨?_, ?_, fun _ => ⟨?_, ?_, ?_, ?_⟩, ?_⟩
    · rw [hres, if_neg h0]
      simp
    · rw [htk, flatten_window_map]
    · rw [hres, List.getLast?_append]
      rfl
    · exact List.take_left' hdroplen
    · exact List.drop_left' hdroplen
    · simp only [List.length_append, List.length_drop, hpad]
      omega
    · rw [htk, hdp, flatten_window_map]
      simp only [List.flatten_cons, List.flatten_nil, List.append_nil]
      rw [List.take_left' hdroplen]
      exact List.take_append_drop _ _

/-- Witness for C3 at `S = 2`, `s = [1, 2, 3]`, `pad = [9, 9]`. -/
theorem vectorizePad_cover_witness :
    (0 : Nat) < 2 ∧ ([(9 : Int), 9] : List Int).length = 2 ∧
      ((vectorizePad 2 [(1 : Int), 2, 3] [9, 9]).take 1).flatten ++
        (((vectorizePad 2 [(1 : Int), 2, 3] [9, 9]).drop 1).flatten.take 1)
        = [(1 : Int), 2, 3] :=
  ⟨by decide, by decide,
    (vectorizePad_cover 2 [(1 : Int), 2, 3] [9, 9] (by decide)
      (by decide)).2.2.2⟩

/-- C10: for a mutable slice whose length is divisible by `S`, consuming every
proxy yielded by `vectorize()` without modifying the proxied vectors leaves
the slice unchanged: each proxy reads exactly its own `S`-element window and
its drop writes that same data back to the same window. -/
theorem mut_vectorize_roundtrip {B : Type} (S : Nat) (s : List B)
    (h : s.length % S = 0) :
    proxyRoundTrip S s = s ∧
      ∀ idx : Nat, writeWindow S s idx (readGet S s idx) = s := by
  refine ⟨?_, fun idx => writeWindow_readGet S s idx⟩
  unfold proxyRoundTrip
  exact foldl_fixed _ s (fun acc idx => writeWindow_readGet S acc idx) _

/-- Witness for C10 at `S = 2`, `s = [1, 2, 3, 4]`. -/
theorem mut_vectorize_roundtrip_witness :
    ([(1 : Int), 2, 3, 4].length % 2 = 0) ∧
      proxyRoundTrip 2 [(1 : Int), 2, 3, 4] = [(1 : Int), 2, 3, 4] :=
  ⟨by decide,
    (mut_vectorize_roundtrip 2 [(1 : Int), 2, 3, 4] (by decide)).1⟩

/-- C4: `scatter_store` validates `idx.len() == S` and that every index is in
bounds of `out` before performing any write; if either check fails, the call
aborts with the output buffer in its original state (`Except.error out`) — no
partial scatter.  The same all-or-nothing behaviour holds for
`scatter_store_masked`, whose bounds check is restricted to mask-enabled
lanes (after additionally validating the mask length). -/
theorem scatter_store_all_or_nothing {B : Type} {S : Nat} (v : Vector B S)
    (out : List B) (idx : List Nat) (mask : List Bool) :
    (¬(idx.length = S ∧ ∀ l ∈ idx, l < out.length) →
        scatter_store v out idx = Except.error out) ∧
    ((idx.length = S ∧ ∀ l ∈ idx, l < out.length) →
        ∃ r, scatter_store v out idx = Except.ok r) ∧
    (¬(idx.length = S ∧ mask.length = S ∧
          ∀ p ∈ idx.zip mask, p.2 = true → p.1 < out.length) →
        scatter_store_masked v out idx mask = Except.error out) ∧
    ((idx.length = S ∧ mask.length = S ∧
          ∀ p ∈ idx.zip mask, p.2 = true → p.1 < out.length) →
        ∃ r, scatter_store_masked v out idx mask = Except.ok r) := by
  have hall : (idx.all (fun l => decide (l < out.length)) = true)
      ↔ ∀ l ∈ idx, l < out.length := by
    simp [List.all_eq_true]
  have hallm : ((idx.zip mask).all
        (fun p => !p.2 || decide (p.1 < out.length)) = true)
      ↔ ∀ p ∈ idx.zip mask, p.2 = true → p.1 < out.length := by
    simp [List.all_eq_true]
  refine ⟨?_, ?_, ?_, ?_⟩
  · intro h
    unfold scatter_store
    by_cases h1 : idx.length = S
    · rw [if_pos h1, if_neg fun hb => h ⟨h1, hall.mp hb⟩]
    · rw [if_neg h1]
  · rintro ⟨h1, h2⟩
    unfold scatter_store
    rw [if_pos h1, if_pos (hall.mpr h2)]
    exact ⟨_, rfl⟩
  · intro h
    unfold scatter_store_masked
    by_cases h1 : idx.length = S
    · by_cases h2 : mask.length = S
      · rw [if_pos h1, if_pos h2,
          if_neg fun hb => h ⟨h1, h2, hallm.mp hb⟩]
      · rw [if_pos h1, if_neg h2]
    · rw [if_neg h1]
  · rintro ⟨h1, h2, h3⟩
    unfold scatter_store_masked
    rw [if_pos h1, if_pos h2, if_pos (hallm.mpr h3)]
    exact ⟨_, rfl⟩

/-- Witness for C4: an out-of-bounds plain scatter and a masked scatter whose
only out-of-bounds index is mask-disabled. -/
theorem scatter_store_all_or_nothing_witness :
    scatter_store v12 ([0, 0, 0] : List Int) [0, 5] = Except.error [0, 0, 0] ∧
    (∃ r, scatter_store v12 ([0, 0, 0] : List Int) [0, 2] = Except.ok r) ∧
    scatter_store_masked v12 ([0, 0, 0] : List Int) [0, 5] [true, true]
        = Except.error [0, 0, 0] ∧
    (∃ r, scatter_store_masked v12 ([0, 0, 0] : List Int) [0, 5] [true, false]
        = Except.ok r) :=
  ⟨(scatter_store_all_or_nothing v12 [0, 0, 0] [0, 5] [true, true]).1
      (by decide),
    (scatter_store_all_or_nothing v12 [0, 0, 0] [0, 2] [true, true]).2.1
      (by decide),
    (scatter_store_all_or_nothing v12 [0, 0, 0] [0, 5] [true, true]).2.2.1
      (by decide),
    (scatter_store_all_or_nothing v12 [0, 0, 0] [0, 5] [true, false]).2.2.2
      (by decide)⟩

/-- C5: for same-shape vectors `a`, `b`, a mask container of length `S` and
any lane `i < S`, `a.blend(b, m)` succeeds and its lane `i` is `b[i]` if
`m[i]` is true and `a[i]` otherwise. -/
theorem blend_partition {B : Type} {S : Nat} (x y : Vector B S)
    (mask : List Bool) (h : mask.length = S) (i : Fin S) :
    ∃ v, blend x y mask = some v ∧
      v.get i = if mask.get ⟨i.1, by rw [h]; exact i.2⟩ then y.get i
                else x.get i := by
  unfold blend
  rw [dif_pos (le_of_eq h.symm)]
  exact ⟨_, rfl, Vector.get_ofFn _ i⟩

/-- Witness for C5 at `S = 2`, `a = [1, 2]`, `b = [5, 6]`,
`m = [true, false]`, lane 0. -/
theorem blend_partition_witness :
    ([true, false] : List Bool).length = 2 ∧
      ∃ v, blend v12 v56 [true, false] = some v ∧
        v.get ⟨0, by decide⟩
          = if ([true, false] : List Bool).get ⟨0, by decide⟩
            then v56.get ⟨0, by decide⟩ else v12.get ⟨0, by decide⟩ :=
  ⟨rfl, blend_partition v12 v56 [true, false] rfl ⟨0, by decide⟩⟩

/-- C9: `blend` never validates that the mask has exactly `S` elements: any
mask of length at least `S` succeeds, with elements at positions `S` and
beyond ignored, and only a shorter mask fails (from per-lane indexing) —
unlike `gather_load_masked` and `scatter_store_masked`, which assert the mask
length equals `S` before doing anything. -/
theorem blend_mask_unchecked {B : Type} {S : Nat} (x y : Vector B S)
    (mask : List Bool) :
    (S ≤ mask.length → (blend x y mask).isSome = true ∧
        blend x y mask = blend x y (mask.take S)) ∧
    (mask.length < S → blend x y mask = none) ∧
    (∀ (v : Vector B S) (out : List B) (idx : List Nat), mask.length ≠ S →
        scatter_store_masked v out idx mask = Except.error out) ∧
    (∀ (x2 : Vector B S) (input : List B) (idx : List Nat),
        mask.length ≠ S → gather_load_masked x2 input idx mask = none) := by
  refine ⟨?_, ?_, ?_, ?_⟩
  · intro h
    have htk : S ≤ (mask.take S).length := by
      simp only [List.length_take]
      omega
    unfold blend
    rw [dif_pos h, dif_pos htk]
    refine ⟨rfl, ?_⟩
    congr 1
    apply Vector.ext_get
    intro i
    rw [Vector.get_ofFn, Vector.get_ofFn]
    have : (mask.take S).get ⟨i.1, lt_of_lt_of_le i.2 htk⟩
        = mask.get ⟨i.1, lt_of_lt_of_le i.2 h⟩ := by
      simp [List.get_eq_getElem, List.getElem_take]
    rw [this]
  · intro h
    unfold blend
    rw [dif_neg (not_le.mpr h)]
  · intro v out idx h
    unfold scatter_store_masked
    by_cases h1 : idx.length = S
    · rw [if_pos h1, if_neg h]
    · rw [if_neg h1]
  · intro x2 input idx h
    unfold gather_load_masked
    by_cases h1 : idx.length = S
    · rw [if_pos h1, if_neg h]
    · rw [if_neg h1]

/-- Witness for C9: a 3-element mask on 2-lane blend succeeds and equals the
truncated-mask blend; a 1-element mask fails blend and is rejected up front
by the masked gather/scatter. -/
theorem blend_mask_unchecked_witness :
    ((blend v12 v56 [true, false, true]).isSome = true ∧
      blend v12 v56 [true, false, true]
        = blend v12 v56 ([true, false, true].take 2)) ∧
    blend v12 v56 [true] = none ∧
    scatter_store_masked v12 ([0, 0] : List Int) [0, 1] [true]
        = Except.error [0, 0] ∧
    gather_load_masked v12 ([5, 6] : List Int) [0, 1] [true] = none :=
  ⟨(blend_mask_unchecked v12 v56 [true, false, true]).1 (by decide),
    (blend_mask_unchecked v12 v56 [true]).2.1 (by decide),
    (blend_mask_unchecked v12 v56 [true]).2.2.1 v12 [0, 0] [0, 1]
      (by decide),
    (blend_mask_unchecked v12 v56 [true]).2.2.2 v12 [5, 6] [0, 1]
      (by decide)⟩

/-- C6, counterexample: over a float-like base type with a NaN lane the claim
fails.  With `a = [NaN]` and `b = [1.0]`, `lt` and `gt` are both false on the
lane, so `maximum` and `minimum` both keep `self`'s NaN, and
`ge(NaN, NaN)` is false — the lane of `a.maximum(b).ge(a.minimum(b))` is
FALSE, not TRUE. -/
theorem maximum_ge_minimum_nan_counterexample :
    (maximum nanCmp vNaN vOne).map (fun mx =>
      (minimum nanCmp vNaN vOne).map (fun mn =>
        (cmpOp (pGe nanCmp) mx mn).data)) = some (some [false]) := by
  rfl

/-- C6, amended: for base types whose `PartialOrd` is a total order (the
comparison is `some (compare a b)` for a linear order, as for the integer
base types), every lane of `a.maximum(b).ge(a.minimum(b))` is TRUE.  For
partially ordered bases (floats), an incomparable (NaN) lane yields FALSE
instead, as the counterexample shows. -/
theorem maximum_ge_minimum_total {B : Type} [LinearOrder B] {S : Nat}
    (x y : Vector B S) :
    ∃ mx mn,
      maximum (fun a b => some (compare a b)) x y = some mx ∧
      minimum (fun a b => some (compare a b)) x y = some mn ∧
      ∀ i : Fin S,
        (cmpOp (pGe (fun a b => some (compare a b))) mx mn).get i = true := by
  obtain ⟨mx, hmx, hmxg⟩ :=
    blend_native_mask x y (cmpOp (pLt (fun a b => some (compare a b))) x y)
  obtain ⟨mn, hmn, hmng⟩ :=
    blend_native_mask x y (cmpOp (pGt (fun a b => some (compare a b))) x y)
  refine ⟨mx, mn, hmx, hmn, fun i => ?_⟩
  rw [cmpOp_get, hmxg i, hmng i, cmpOp_get, cmpOp_get]
  rcases lt_trichotomy (x.get i) (y.get i) with h | h | h
  · have h1 : compare (x.get i) (y.get i) = Ordering.lt :=
      compare_lt_iff_lt.mpr h
    have h2 : compare (y.get i) (x.get i) = Ordering.gt :=
      compare_gt_iff_gt.mpr h
    simp [pLt, pGt, pGe, h1, h2]
  · have h1 : compare (x.get i) (y.get i) = Ordering.eq :=
      compare_eq_iff_eq.mpr h
    have h2 : compare (x.get i) (x.get i) = Ordering.eq :=
      compare_eq_iff_eq.mpr rfl
    simp [pLt, pGt, pGe, h1, h2]
  · have h1 : compare (x.get i) (y.get i) = Ordering.gt :=
      compare_gt_iff_gt.mpr h
    simp [pLt, pGt, pGe, h1]

/-- C7: `horizontal_sum` (and `horizontal_product`) equals the reference
balanced-binary-tree reduction `specReduce` over the lanes: if `S = 1` the
single lane, otherwise the reduction of the first `⌊S/2⌋` lanes combined with
the reduction of the remaining lanes.  In particular, for `S = 4` and an
arbitrary — not necessarily associative — combiner, the result is
`(v0 ⊕ v1) ⊕ (v2 ⊕ v3)`, the balanced tree rather than a left fold. -/
theorem horizontal_reduce_tree {B : Type} :
    (∀ (op : B → B → B) (dflt : B) (S : Nat) (v : Vector B S), 1 ≤ S →
      horizontal_sum op v
          = some (specReduce op (fun i => v.data.getD i dflt) 0 S) ∧
        horizontal_product op v
          = some (specReduce op (fun i => v.data.getD i dflt) 0 S)) ∧
    (∀ (op : B → B → B) (v : Vector B 4),
      horizontal_sum op v
          = some (op (op (v.get 0) (v.get 1)) (op (v.get 2) (v.get 3))) ∧
        horizontal_product op v
          = some (op (op (v.get 0) (v.get 1)) (op (v.get 2) (v.get 3)))) := by
  constructor
  · intro op dflt S v hS
    have h := innerReduce_spec op dflt S v.data v.hlen hS
    exact ⟨h, h⟩
  · intro op v
    obtain ⟨data, hlen⟩ := v
    rcases data with _ | ⟨a, _ | ⟨b, _ | ⟨c, _ | ⟨d, _ | ⟨e, rest⟩⟩⟩⟩⟩ <;>
      simp at hlen
    have h4 := innerReduce_four op a b c d
    constructor
    · show innerReduce op [a, b, c, d] = _
      rw [h4]
      rfl
    · show innerReduce op [a, b, c, d] = _
      rw [h4]
      rfl

/-- Witness for C7 at `S = 2`, `v = [1, 2]`, `op = +`. -/
theorem horizontal_reduce_tree_witness :
    (1 : Nat) ≤ 2 ∧
      horizontal_sum (· + ·) v12
        = some (specReduce (· + ·) (fun i => v12.data.getD i 0) 0 2) :=
  ⟨by decide,
    ((horizontal_reduce_tree (B := Int)).1 (· + ·) 0 2 v12 (by decide)).1⟩

/-- C8: iterating a `vectorize`/`vectorize_pad` iterator from the back yields
the tail (padding) item first, when one exists, then the full items in
descending window order; iterating from the front yields the full items in
ascending window order, with the padding item last. -/
theorem vectorize_double_ended {B : Type} (S : Nat) (s pad : List B) :
    (∃ n t, createRead S s (some pad) = some (n, t) ∧
      vectorizePadIter S s pad = some ⟨t, readGet S s, 0, n⟩ ∧
      drainFwd (n + 2) ⟨t, readGet S s, 0, n⟩
        = (List.range n).map (readGet S s) ++ t.toList ∧
      drainBack (n + 2) ⟨t, readGet S s, 0, n⟩
        = t.toList ++ ((List.range n).map (readGet S s)).reverse) ∧
    (s.length % S = 0 →
      ∃ n, vectorizeIter S s = some ⟨none, readGet S s, 0, n⟩ ∧
        drainFwd (n + 2) ⟨none, readGet S s, 0, n⟩
          = (List.range n).map (readGet S s) ∧
        drainBack (n + 2) ⟨none, readGet S s, 0, n⟩
          = ((List.range n).map (readGet S s)).reverse) := by
  have hfwd : ∀ (n : Nat) (t : Option (List B)),
      drainFwd (n + 2) (⟨t, readGet S s, 0, n⟩ : VectorizedIter (List B))
        = (List.range n).map (readGet S s) ++ t.toList := by
    intro n t
    rw [drainFwd_spec (n + 2) t (readGet S s) 0 n
      (by rcases t <;> simp)]
    rw [Nat.sub_zero, ← List.range_eq_range']
  have hback : ∀ (n : Nat) (t : Option (List B)),
      drainBack (n + 2) (⟨t, readGet S s, 0, n⟩ : VectorizedIter (List B))
        = t.toList ++ ((List.range n).map (readGet S s)).reverse := by
    intro n t
    rw [drainBack_spec (n + 2) t (readGet S s) 0 n
      (by rcases t <;> simp)]
    rw [Nat.sub_zero, ← List.range_eq_range']
  constructor
  · by_cases h0 : s.length % S = 0
    · refine ⟨(s.length - s.length % S) / S, none, ?_, ?_, hfwd _ _,
        hback _ _⟩
      · unfold createRead
        simp [h0]
      · unfold vectorizePadIter createRead
        simp [h0]
    · refine ⟨(s.length - s.length % S) / S,
        some (s.drop (s.length - s.length % S) ++ pad.drop (s.length % S)),
        ?_, ?_, hfwd _ _, hback _ _⟩
      · unfold createRead
        simp [h0]
      · unfold vectorizePadIter createRead
        simp [h0]
  · intro h0
    refine ⟨(s.length - s.length % S) / S, ?_, ?_, ?_⟩
    · unfold vectorizeIter createRead
      simp [h0]
    · simpa using hfwd ((s.length - s.length % S) / S) none
    · simpa using hback ((s.length - s.length % S) / S) none

/-- Witness for C8 at `S = 2`, `s = [1, 2, 3, 4]`. -/
theorem vectorize_double_ended_witness :
    ([(1 : Int), 2, 3, 4].length % 2 = 0) ∧
      ∃ n, vectorizeIter 2 [(1 : Int), 2, 3, 4]
          = some ⟨none, readGet 2 [(1 : Int), 2, 3, 4], 0, n⟩ ∧
        drainFwd (n + 2) ⟨none, readGet 2 [(1 : Int), 2, 3, 4], 0, n⟩
          = (List.range n).map (readGet 2 [(1 : Int), 2, 3, 4]) ∧
        drainBack (n + 2) ⟨none, readGet 2 [(1 : Int), 2, 3, 4], 0, n⟩
          = ((List.range n).map (readGet 2 [(1 : Int), 2, 3, 4])).reverse :=
  ⟨by decide,
    (vectorize_double_ended 2 [(1 : Int), 2, 3, 4] []).2 (by decide)⟩

end Slipstream
